import Mathlib

/-!
Verification of the MWatch ingress framing/dispatch engine
(src/src/ingress/ingress_manager.rs) and of the touch-input multiplexer
(src/src/system/input.rs), as a shallow embedding in Lean 4.

Bytes are modelled as Nat (machine width is irrelevant here: every byte
entering the engine comes from a byte stream, so values are below 256, and
no arithmetic overflows occur in the embedded code paths).

The collaborators reached through the System object (application manager,
notification manager, syscall executor) are not part of the source tree;
per the specification they are consumed through narrow result-returning
contracts.  They are modelled as a read-only table of call outcomes
(`Oracles`) plus an event log (`Event`) recording every collaborator call
in order, which is the observable behavior of the engine.
-/

namespace MWatch

/-- Message type tag of a frame buffer, from the source enum `Type`
(declared in the ingress buffer module; variants used by
ingress_manager.rs: Unknown, Application, Notification, Syscall). -/
inductive Ty
  | Unknown
  | Application
  | Notification
  | Syscall
deriving DecidableEq

/-- The `State` enum of ingress_manager.rs, verbatim. -/
inductive State
  | Wait
  | Init
  | Payload
  | ApplicationChecksum
  | ApplicationStore
  | NotificationSource
  | NotificationTitle
  | NotificationBody
deriving DecidableEq

/-- STX frame-start delimiter (ingress_manager.rs line 35). -/
def STX : Nat := 2
/-- ETX frame-end delimiter (ingress_manager.rs line 36). -/
def ETX : Nat := 3
/-- Unit-separator field delimiter, named PAYLOAD in the source (line 37). -/
def SEP : Nat := 31

/-- Modelled from the spec: the Frame Buffer (spec section 3) of the ingress
buffer module, which is not under src/.  A classified type tag plus the
accumulated payload bytes; `write` appends at the write cursor and `clear`
empties the buffer and resets the tag (the buffer is cleared and retyped on
every frame start).  The fixed capacity bound, whose overflow the spec calls
a fatal condition, is left out of the model: no claim depends on it. -/
structure Buffer where
  btype : Ty
  payload : List Nat
deriving DecidableEq

def Buffer.write (b : Buffer) (byte : Nat) : Buffer :=
  { b with payload := b.payload ++ [byte] }

def Buffer.clear (_b : Buffer) : Buffer :=
  { btype := Ty.Unknown, payload := [] }

def Buffer.mkDefault : Buffer :=
  { btype := Ty.Unknown, payload := [] }

/-- Modelled from the spec: outcomes of the collaborator calls reached via
the System handle (spec section 6).  Each field fixes the Result returned
by the corresponding collaborator method; `status` is the opaque value
reported by the application manager for diagnostics. -/
structure Oracles where
  verifyOk : Bool
  killOk : Bool
  wcOk : Bool
  wrOk : Bool
  addOk : Bool
  parseOk : Bool
  status : Nat
deriving DecidableEq

/-- One observable collaborator call made by the engine, in order. -/
inductive Event
  | kill (ok : Bool)
  | writeChecksum (b : Nat) (ok : Bool)
  | writeRam (b : Nat) (ok : Bool)
  | verify
  | nmAdd (content : List Nat) (nsi : Nat × Nat × Nat) (ok : Bool)
  | syscall (content : List Nat) (ok : Bool)
deriving DecidableEq

/-- The process-level Dispatcher actions (spec section 4.5): the calls made
by `process` itself when a completed frame is routed by type, as opposed to
the incremental collaborator calls made by the byte state machine. -/
def Event.isDispatch : Event → Bool
  | Event.verify => true
  | Event.nmAdd _ _ _ => true
  | Event.syscall _ _ => true
  | _ => false

/-- The IngressManager struct.  The two-element hex_chars array is the pair
h0, h1; the three-element nsi array is the triple nsi0, nsi1, nsi2.  The
ring buffer rb is the FIFO of queued bytes, oldest first. -/
structure IngressManager where
  buffer : Buffer
  rb : List Nat
  state : State
  h0 : Nat
  h1 : Nat
  hex_idx : Nat
  nsi0 : Nat
  nsi1 : Nat
  nsi2 : Nat
  nsi_idx : Nat
deriving DecidableEq

/-- IngressManager::new (lines 54-64). -/
def IngressManager.new : IngressManager :=
  { buffer := Buffer.mkDefault
    rb := []
    state := State.Init
    h0 := 0, h1 := 0, hex_idx := 0
    nsi0 := 0, nsi1 := 0, nsi2 := 0, nsi_idx := 0 }

/-- Modelled from the spec: the capacity of the heapless byte queue
`Queue<u8, U512>`; the spec (section 3) fixes it at 512. -/
def QUEUE_CAP : Nat := 512

/-- Enqueue loop of IngressManager::write (lines 71-78): each byte is
enqueued in turn; an enqueue attempt at capacity panics, reported here as
`Except.error` carrying the rejected byte. -/
def write_aux : List Nat → List Nat → Except Nat (List Nat)
  | rb, [] => Except.ok rb
  | rb, b :: rest =>
      if rb.length < QUEUE_CAP then write_aux (rb ++ [b]) rest
      else Except.error b

/-- IngressManager::write: append data to the ring buffer, panicking on
overflow. -/
def write (im : IngressManager) (data : List Nat) : Except Nat IngressManager :=
  (write_aux im.rb data).map fun rb2 => { im with rb := rb2 }

/-- IngressManager::determine_type (lines 239-247): map the type selector
byte to a message type; 78 = N, 83 = S, 65 = A. -/
def determine_type (b : Nat) : Ty :=
  if b = 78 then Ty.Notification
  else if b = 83 then Ty.Syscall
  else if b = 65 then Ty.Application
  else Ty.Unknown

/-- Modelled from the spec: hex_byte_to_byte of the simple_hex crate
(spec section 4.3 and glossary): two ASCII hex characters give one byte,
first character is the high nibble; a non-hex character is an error
(`none`). -/
def hexCharVal (c : Nat) : Option Nat :=
  if 48 ≤ c ∧ c ≤ 57 then some (c - 48)
  else if 97 ≤ c ∧ c ≤ 102 then some (c - 87)
  else if 65 ≤ c ∧ c ≤ 70 then some (c - 55)
  else none

def hex_byte_to_byte (c1 c2 : Nat) : Option Nat :=
  match hexCharVal c1, hexCharVal c2 with
  | some hi, some lo => some (hi * 16 + lo)
  | _, _ => none

/-- The ApplicationChecksum / ApplicationStore arm of run_state_machine
(lines 126-163): store the byte into hex_chars at hex_idx, bump hex_idx,
and once two characters are pending decode them and forward the decoded
byte to the checksum or ram sink; a sink rejection or a hex-decode failure
forces state back to Wait; hex_idx is reset after every decode. -/
def hexStep (oc : Oracles) (im : IngressManager) (byte : Nat) : IngressManager × List Event :=
  let im1 := if im.hex_idx = 0 then { im with h0 := byte, hex_idx := im.hex_idx + 1 }
             else { im with h1 := byte, hex_idx := im.hex_idx + 1 }
  if im1.hex_idx > 1 then
    match hex_byte_to_byte im1.h0 im1.h1 with
    | some b =>
        if im1.state = State.ApplicationChecksum then
          ((if oc.wcOk then { im1 with hex_idx := 0 }
            else { im1 with state := State.Wait, hex_idx := 0 }),
           [Event.writeChecksum b oc.wcOk])
        else
          ((if oc.wrOk then { im1 with hex_idx := 0 }
            else { im1 with state := State.Wait, hex_idx := 0 }),
           [Event.writeRam b oc.wrOk])
    | none => ({ im1 with state := State.Wait, hex_idx := 0 }, [])
  else (im1, [])

/-- IngressManager::run_state_machine (lines 113-172): the per-state byte
handler for non-delimiter bytes. -/
def run_state_machine (oc : Oracles) (im : IngressManager) (byte : Nat) : IngressManager × List Event :=
  match im.state with
  | State.Init =>
      let im2 := { im with buffer := { im.buffer with btype := determine_type byte } }
      if determine_type byte = Ty.Unknown then ({ im2 with state := State.Wait }, [])
      else (im2, [])
  | State.Payload => ({ im with buffer := im.buffer.write byte }, [])
  | State.ApplicationChecksum => hexStep oc im byte
  | State.ApplicationStore => hexStep oc im byte
  | State.NotificationSource =>
      ({ im with nsi_idx := im.nsi_idx + 1, buffer := im.buffer.write byte }, [])
  | State.NotificationTitle =>
      ({ im with nsi_idx := im.nsi_idx + 1, buffer := im.buffer.write byte }, [])
  | State.NotificationBody =>
      ({ im with nsi_idx := im.nsi_idx + 1, buffer := im.buffer.write byte }, [])
  | State.Wait => (im, [])

/-- The STX arm of match_rb (lines 179-188): reset the hex accumulator
index, the section cursor and the frame buffer, and activate processing.
The nsi0, nsi1, nsi2 section indices themselves are NOT reset, exactly as
in the source. -/
def stx_step (im : IngressManager) : IngressManager :=
  { im with hex_idx := 0, nsi_idx := 0, buffer := im.buffer.clear, state := State.Init }

/-- The PAYLOAD (unit separator) arm of match_rb (lines 195-227). -/
def sep_step (oc : Oracles) (im : IngressManager) : IngressManager × List Event :=
  match im.buffer.btype with
  | Ty.Unknown => ({ im with state := State.Wait }, [])
  | Ty.Application =>
      if im.state = State.ApplicationChecksum then
        ({ im with state := State.ApplicationStore }, [])
      else
        ({ im with state := State.ApplicationChecksum }, [Event.kill oc.killOk])
  | Ty.Notification =>
      if im.state = State.NotificationSource then
        ({ im with nsi0 := im.nsi_idx, state := State.NotificationTitle }, [])
      else if im.state = State.NotificationTitle then
        ({ im with nsi1 := im.nsi_idx, state := State.NotificationBody }, [])
      else
        ({ im with state := State.NotificationSource }, [])
  | Ty.Syscall => ({ im with state := State.Payload }, [])

/-- The dequeue loop of IngressManager::match_rb (lines 175-236), recursing
over the queued bytes (the rb field of the threaded state is left alone
during the recursion and reinstated by match_rb).  Returns the final
engine state, the bytes left unconsumed in the queue, the collaborator
events emitted, and the completed frame type if an ETX was reached: on ETX
the loop returns at once, leaving later bytes queued. -/
def match_rb_aux (oc : Oracles) : IngressManager → List Nat → IngressManager × List Nat × List Event × Option Ty
  | im, [] => (im, [], [], none)
  | im, b :: rest =>
      if b = STX then match_rb_aux oc (stx_step im) rest
      else if b = ETX then ({ im with state := State.Wait }, rest, [], some im.buffer.btype)
      else if b = SEP then
        let p := sep_step oc im
        let q := match_rb_aux oc p.1 rest
        (q.1, q.2.1, p.2 ++ q.2.2.1, q.2.2.2)
      else
        let p := run_state_machine oc im b
        let q := match_rb_aux oc p.1 rest
        (q.1, q.2.1, p.2 ++ q.2.2.1, q.2.2.2)

/-- IngressManager::match_rb: drain the ring buffer through the state
machine until it is empty or a frame-end byte is consumed. -/
def match_rb (oc : Oracles) (im : IngressManager) : IngressManager × List Event × Option Ty :=
  let r := match_rb_aux oc { im with rb := [] } im.rb
  ({ r.1 with rb := r.2.1 }, r.2.2.1, r.2.2.2)

/-- IngressManager::process (lines 81-110): run match_rb, then route the
completed frame (if any) by type.  An Unknown type aborts to Wait with no
dispatch; Application invokes verify and panics on its failure (modelled
as `Except.error` carrying the application manager status surfaced by the
panic message); Notification stamps nsi2 with the cursor and hands buffer
and section indices to the notification manager; Syscall parses and
executes the buffer text. -/
def process (oc : Oracles) (im : IngressManager) : Except Nat (IngressManager × List Event) :=
  let m := match_rb oc im
  match m.2.2 with
  | none => Except.ok (m.1, m.2.1)
  | some Ty.Unknown => Except.ok ({ m.1 with state := State.Wait }, m.2.1)
  | some Ty.Application =>
      if oc.verifyOk then Except.ok (m.1, m.2.1 ++ [Event.verify])
      else Except.error oc.status
  | some Ty.Notification =>
      Except.ok ({ m.1 with nsi2 := m.1.nsi_idx },
                 m.2.1 ++ [Event.nmAdd m.1.buffer.payload (m.1.nsi0, m.1.nsi1, m.1.nsi_idx) oc.addOk])
  | some Ty.Syscall =>
      Except.ok (m.1, m.2.1 ++ [Event.syscall m.1.buffer.payload oc.parseOk])

/-- An all-successful collaborator outcome table. -/
def oc0 : Oracles :=
  { verifyOk := true, killOk := true, wcOk := true, wrOk := true,
    addOk := true, parseOk := true, status := 0 }

/-- An outcome table whose verify call fails with status 7. -/
def ocBad : Oracles :=
  { verifyOk := false, killOk := true, wcOk := true, wrOk := true,
    addOk := true, parseOk := true, status := 7 }

/-- Two consecutive process calls, collecting the events of each. -/
def run_twice (oc : Oracles) (im : IngressManager) : Except Nat (List Event × List Event) :=
  match process oc im with
  | Except.error e => Except.error e
  | Except.ok p =>
      match process oc p.1 with
      | Except.error e => Except.error e
      | Except.ok q => Except.ok (p.2, q.2)

/-- The queue content strictly after the first frame-end byte (empty when
no frame-end byte is queued). -/
def after_first_etx : List Nat → List Nat
  | [] => []
  | b :: rest => if b = ETX then rest else after_first_etx rest

/-- C6: processing STX, N, US, src, US, title, US, body, ETX dispatches
exactly one Notification frame whose buffer is the concatenation
srctitlebody and whose section indices are 3, 8 and 12 (the cumulative
lengths marking the end of the source, title and body fields). -/
theorem c6_notification_sections :
    (process oc0 { IngressManager.new with
        rb := [2, 78, 31, 115, 114, 99, 31, 116, 105, 116, 108, 101, 31, 98, 111, 100, 121, 3] }).map
      (fun p => p.2)
    = Except.ok [Event.nmAdd [115, 114, 99, 116, 105, 116, 108, 101, 98, 111, 100, 121] (3, 8, 12) true] := by
  rfl

/-- C7: processing STX, A, US, 41A2, US, 0A, ETX first calls kill once at
the first field separator, then writes checksum bytes 0x41 = 65 and
0xA2 = 162, then the single firmware byte 0x0A = 10 to ram, each decoded
from two ASCII hex characters with the first supplying the high nibble
(and finally verify runs at the frame end). -/
theorem c7_application_load :
    (process oc0 { IngressManager.new with
        rb := [2, 65, 31, 52, 49, 65, 50, 31, 48, 65, 3] }).map (fun p => p.2)
    = Except.ok [Event.kill true, Event.writeChecksum 65 true, Event.writeChecksum 162 true,
                 Event.writeRam 10 true, Event.verify] := by
  rfl

/-- C2 (code bug): a stray frame-end byte arriving in the Wait state with
no intervening frame-start re-invokes the Dispatcher with the contents and
type of the already-dispatched Frame Buffer.  Queueing STX, N, US, h, ETX,
ETX and calling process twice dispatches the identical notification
(content [104], section indices (0,0,1)) twice: the second, stray ETX
re-yields the stale buffer. -/
theorem c2_stale_redispatch :
    run_twice oc0 { IngressManager.new with rb := [2, 78, 31, 104, 3, 3] }
    = Except.ok ([Event.nmAdd [104] (0, 0, 1) true], [Event.nmAdd [104] (0, 0, 1) true]) := by
  rfl

/-- The dequeue loop leaves exactly the bytes after the first frame-end
byte in the queue, whatever the engine state: the loop only returns early
on an ETX byte and consumes everything before it. -/
theorem match_rb_aux_rest (oc : Oracles) :
    ∀ (bytes : List Nat) (im : IngressManager),
      (match_rb_aux oc im bytes).2.1 = after_first_etx bytes := by
  intro bytes
  induction bytes with
  | nil => intro im; rfl
  | cons b rest ih =>
      intro im
      by_cases h2 : b = 2
      · subst h2; simp [match_rb_aux, after_first_etx, STX, ETX, ih]
      · by_cases h3 : b = 3
        · subst h3; simp [match_rb_aux, after_first_etx, STX, ETX]
        · by_cases h31 : b = 31
          · subst h31; simp [match_rb_aux, after_first_etx, STX, ETX, SEP, ih]
          · simp [match_rb_aux, after_first_etx, STX, ETX, SEP, h2, h3, h31, ih]

/-- When process returns normally, the engine state it returns carries the
ring buffer produced by match_rb unchanged: the dispatch arms never touch
the queue. -/
theorem process_ok_rb (oc : Oracles) (im : IngressManager) (p : IngressManager × List Event)
    (h : process oc im = Except.ok p) : p.1.rb = (match_rb oc im).1.rb := by
  rcases hr : (match_rb oc im).2.2 with _ | ty
  · simp only [process, hr] at h
    cases h
    rfl
  · cases ty
    · simp only [process, hr] at h
      cases h
      rfl
    · by_cases hv : oc.verifyOk
      · simp only [process, hr, hv, if_pos] at h
        cases h
        rfl
      · simp only [process, hr, hv] at h
        cases h
    · simp only [process, hr] at h
      cases h
      rfl
    · simp only [process, hr] at h
      cases h
      rfl

/-- C1 (amended): a single call to process does not in general drain the
whole queue; it consumes the queued bytes up to and including the first
frame-end byte (dispatching that frame before returning), or the entire
queue when no frame-end byte is queued, and leaves exactly the bytes after
that first frame-end byte queued for a later call. -/
theorem c1_amended (oc : Oracles) (im im2 : IngressManager) (evs : List Event)
    (h : process oc im = Except.ok (im2, evs)) :
    im2.rb = after_first_etx im.rb := by
  have h1 := process_ok_rb oc im (im2, evs) h
  have h2 : (match_rb oc im).1.rb = after_first_etx im.rb := by
    simp [match_rb, match_rb_aux_rest]
  exact h1.trans h2

/-- Witness for C1 (amended) at the queue STX, S, US, h, ETX, STX: the
byte after the frame-end stays queued. -/
theorem c1_amended_witness :
    ((⟨⟨Ty.Syscall, [104]⟩, [2], State.Wait, 0, 0, 0, 0, 0, 0, 0⟩ : IngressManager)).rb
      = after_first_etx [2, 83, 31, 104, 3, 2] :=
  c1_amended oc0 { IngressManager.new with rb := [2, 83, 31, 104, 3, 2] }
    ⟨⟨Ty.Syscall, [104]⟩, [2], State.Wait, 0, 0, 0, 0, 0, 0, 0⟩
    [Event.syscall [104] true] rfl

/-- C1 (counterexample): with the queue STX, S, US, h, ETX, STX a single
process call returns normally with the trailing STX still queued — the
queue is not empty when process returns. -/
theorem c1_counterexample :
    (process oc0 { IngressManager.new with rb := [2, 83, 31, 104, 3, 2] }).map (fun p => p.1.rb)
      = Except.ok [2] ∧ ([2] : List Nat) ≠ [] :=
  ⟨rfl, by simp⟩

/-- C3 (counterexample): two runs whose bytes since the last frame-start
are identical (STX, N, US, c, ETX) dispatch different section-index
arrays: the first run carries stale indices 1 and 2 written during an
earlier, abandoned frame, because the frame-start resets the section
cursor but not the section-index array itself. -/
theorem c3_counterexample :
    (process oc0 { IngressManager.new with
        rb := [2, 78, 31, 97, 31, 98, 31, 2, 78, 31, 99, 3] }).map (fun p => p.2)
      = Except.ok [Event.nmAdd [99] (1, 2, 1) true] ∧
    (process oc0 { IngressManager.new with rb := [2, 78, 31, 99, 3] }).map (fun p => p.2)
      = Except.ok [Event.nmAdd [99] (0, 0, 1) true] :=
  ⟨rfl, rfl⟩

/-- C4 (counterexample): with a failing verify collaborator (status 7),
processing STX, A, ETX followed by a complete syscall frame panics at the
Application dispatch (modelled as Except.error carrying the surfaced
status); the engine terminates instead of continuing with the next queued
frame. -/
theorem c4_counterexample :
    process ocBad { IngressManager.new with rb := [2, 65, 3, 2, 83, 31, 104, 3] }
      = Except.error 7 := by
  rfl

/-- C4 (amended): when the completed frame is of Application type and
verify fails, process panics, surfacing the application manager status in
the panic (the load is abandoned and the engine terminates; it does not
keep serving subsequent frames). -/
theorem c4_amended (oc : Oracles) (im : IngressManager)
    (hv : oc.verifyOk = false)
    (hr : (match_rb oc im).2.2 = some Ty.Application) :
    process oc im = Except.error oc.status := by
  simp only [process, hr, hv, Bool.false_eq_true, if_false]

/-- Witness for C4 (amended): the frame STX, A, ETX under the failing
verify table panics with its status. -/
theorem c4_amended_witness :
    process ocBad { IngressManager.new with rb := [2, 65, 3] } = Except.error 7 :=
  c4_amended ocBad { IngressManager.new with rb := [2, 65, 3] } rfl rfl

/-- C5 (counterexample): the frame STX, S, x, ETX has a recognized type
selector and a body with no delimiter bytes at all, yet processing it
causes zero dispatches, not one: the second body byte is fed to the Init
state again and reclassifies the buffer to Unknown. -/
theorem c5_counterexample :
    (process oc0 { IngressManager.new with rb := [2, 83, 120, 3] }).map
        (fun p => (p.2.filter Event.isDispatch).length)
      = Except.ok 0 ∧ (0 : Nat) ≠ 1 :=
  ⟨rfl, by simp⟩

/-- An invalid character in either position makes the hex-pair decode
fail. -/
theorem hex_pair_invalid (c1 c2 : Nat)
    (h : hexCharVal c1 = none ∨ hexCharVal c2 = none) :
    hex_byte_to_byte c1 c2 = none := by
  unfold hex_byte_to_byte
  rcases h1 : hexCharVal c1 with _ | v1 <;> rcases h2 : hexCharVal c2 with _ | v2 <;>
    simp_all

/-- C8: in the ApplicationChecksum or ApplicationStore state with an empty
hex accumulator, feeding a two-character pair in which either character is
not an ASCII hex digit forces the state back to Wait, resets the hex fill
index to 0, and emits no collaborator call at all from those two bytes
(in particular no dispatch). -/
theorem c8_invalid_hex_aborts (oc : Oracles) (im : IngressManager) (c1 c2 : Nat)
    (hs : im.state = State.ApplicationChecksum ∨ im.state = State.ApplicationStore)
    (hi : im.hex_idx = 0)
    (hbad : hexCharVal c1 = none ∨ hexCharVal c2 = none) :
    (run_state_machine oc (run_state_machine oc im c1).1 c2).1.state = State.Wait ∧
    (run_state_machine oc (run_state_machine oc im c1).1 c2).1.hex_idx = 0 ∧
    (run_state_machine oc im c1).2 = [] ∧
    (run_state_machine oc (run_state_machine oc im c1).1 c2).2 = [] := by
  rcases hs with hs | hs <;>
    simp [run_state_machine, hexStep, hs, hi, hex_pair_invalid c1 c2 hbad]

/-- An engine parked in the checksum-parsing state with an empty hex
accumulator, used to witness C8. -/
def imChk : IngressManager :=
  { IngressManager.new with state := State.ApplicationChecksum }

/-- Witness for C8 at the concrete pair 4G (bytes 52, 71). -/
theorem c8_witness :
    (run_state_machine oc0 (run_state_machine oc0 imChk 52).1 71).1.state = State.Wait ∧
    (run_state_machine oc0 (run_state_machine oc0 imChk 52).1 71).1.hex_idx = 0 ∧
    (run_state_machine oc0 imChk 52).2 = [] ∧
    (run_state_machine oc0 (run_state_machine oc0 imChk 52).1 71).2 = [] :=
  c8_invalid_hex_aborts oc0 imChk 52 71 (Or.inl rfl) rfl (Or.inr rfl)

/-- Writing within the remaining capacity enqueues every byte in order. -/
theorem write_aux_ok (data : List Nat) : ∀ rb : List Nat,
    rb.length + data.length ≤ QUEUE_CAP →
    write_aux rb data = Except.ok (rb ++ data) := by
  induction data with
  | nil => intro rb _; simp [write_aux]
  | cons b rest ih =>
      intro rb h
      have hlt : rb.length < QUEUE_CAP := by
        simp only [List.length_cons] at h; omega
      have := ih (rb ++ [b]) (by simp at h ⊢; omega)
      simp [write_aux, hlt, this]

/-- Writing one byte past a full queue is rejected at exactly that byte. -/
theorem write_aux_err (data : List Nat) : ∀ (rb : List Nat) (b : Nat) (rest : List Nat),
    rb.length + data.length = QUEUE_CAP →
    write_aux rb (data ++ b :: rest) = Except.error b := by
  induction data with
  | nil =>
      intro rb b rest h
      simp only [List.length_nil, Nat.add_zero] at h
      simp [write_aux, h]
  | cons a data ih =>
      intro rb b rest h
      have hlt : rb.length < QUEUE_CAP := by
        simp only [List.length_cons] at h; omega
      have := ih (rb ++ [a]) b rest (by simp at h ⊢; omega)
      simp [write_aux, hlt, this]

/-- C9: starting from an empty ring buffer, write accepts any run of at
most 512 bytes in full (no overflow before the boundary), and with
exactly 512 bytes enqueued the next byte — the 513th — is the one the
overflow panic reports. -/
theorem c9_overflow_at_boundary (im : IngressManager) (hrb : im.rb = []) (data : List Nat) :
    (data.length ≤ 512 →
      ∃ im2, write im data = Except.ok im2 ∧ im2.rb = data) ∧
    (∀ b rest, data.length = 512 →
      write im (data ++ b :: rest) = Except.error b) := by
  constructor
  · intro h
    refine ⟨{ im with rb := data }, ?_, rfl⟩
    have := write_aux_ok data [] (by simpa [QUEUE_CAP] using h)
    simp [write, hrb, this, Except.map]
  · intro b rest h
    have := write_aux_err data [] b rest (by simpa [QUEUE_CAP] using h)
    simp [write, hrb, this, Except.map]

/-- Witness for C9: after 512 accepted bytes the 513th (here the byte 9)
is rejected by the overflow panic. -/
theorem c9_witness :
    write IngressManager.new (List.replicate 512 0 ++ 9 :: []) = Except.error 9 :=
  (c9_overflow_at_boundary IngressManager.new rfl (List.replicate 512 0)).2 9 []
    (by rw [List.length_replicate])

/-- The InputManager of src/src/system/input.rs, fields raw_vector,
last_vector, pin_idx and tsc_threshold; the tsc peripheral and the three
button pins are hardware handles whose readings enter through the
operation arguments below. -/
structure InputManager where
  raw_vector : Nat
  last_vector : Nat
  pin_idx : Nat
  tsc_threshold : Nat
deriving DecidableEq

/-- InputManager::new (lines 45-60): zeroed vectors and pin index. -/
def InputManager.new (threshold : Nat) : InputManager :=
  { raw_vector := 0, last_vector := 0, pin_idx := 0, tsc_threshold := threshold }

/-- InputManager::update_input (lines 63-85): set or clear the bit of the
current pin in the raw vector (the panic on a pin index above 2 is
modelled as none), then advance the pin index, wrapping to 0 above 2.
The u8 masks !1, !(1 shl 1), !(1 shl 2) are 254, 253, 251. -/
def update_input (im : InputManager) (active : Bool) : Option InputManager :=
  let rv : Option Nat :=
    if active then
      match im.pin_idx with
      | 0 => some (im.raw_vector ||| 1)
      | 1 => some (im.raw_vector ||| 2)
      | 2 => some (im.raw_vector ||| 4)
      | _ => none
    else
      match im.pin_idx with
      | 0 => some (im.raw_vector &&& 254)
      | 1 => some (im.raw_vector &&& 253)
      | 2 => some (im.raw_vector &&& 251)
      | _ => none
  rv.map fun v =>
    let idx := im.pin_idx + 1
    { im with raw_vector := v, pin_idx := if idx > 2 then 0 else idx }

/-- InputManager::start_new (lines 109-120): an acquisition in progress
returns early with an error and no state change; otherwise the tsc start
call for the pin leaves the manager unchanged; a pin index above 2 is the
panic branch (none). -/
def start_new (im : InputManager) (inProgress : Bool) : Option InputManager :=
  if inProgress then some im
  else
    match im.pin_idx with
    | 0 => some im
    | 1 => some im
    | 2 => some im
    | _ => none

/-- InputManager::process_result (lines 124-139): read the tsc value for
the current pin (the reading is the operation argument), feed the
comparison with the threshold to update_input, and clear the event flag;
a pin index above 2 is the panic branch (none).  The Ok / Err(Incomplete)
return value carries no state. -/
def process_result (im : InputManager) (value : Nat) : Option InputManager :=
  match im.pin_idx with
  | 0 => update_input im (decide (value < im.tsc_threshold))
  | 1 => update_input im (decide (value < im.tsc_threshold))
  | 2 => update_input im (decide (value < im.tsc_threshold))
  | _ => none

/-- One call to the InputManager surface, with the hardware reading it
observes: update_input with the raw input, start_new with the
tsc in_progress flag, process_result with the tsc acquisition value. -/
inductive InOp
  | upd (active : Bool)
  | start (inProgress : Bool)
  | result (value : Nat)
deriving DecidableEq

def run_op (im : InputManager) : InOp → Option InputManager
  | InOp.upd a => update_input im a
  | InOp.start p => start_new im p
  | InOp.result v => process_result im v

def run_ops : InputManager → List InOp → Option InputManager
  | im, [] => some im
  | im, op :: rest =>
      match run_op im op with
      | none => none
      | some im2 => run_ops im2 rest

/-- update_input from a legal pin index succeeds and lands on a legal pin
index again. -/
theorem update_input_some (im : InputManager) (h : im.pin_idx ≤ 2) (a : Bool) :
    ∃ im2, update_input im a = some im2 ∧ im2.pin_idx ≤ 2 := by
  have h3 : im.pin_idx = 0 ∨ im.pin_idx = 1 ∨ im.pin_idx = 2 := by omega
  rcases h3 with h0 | h0 | h0 <;> cases a <;> simp [update_input, h0]

/-- Every InputManager operation from a legal pin index avoids the invalid
pin index panic and preserves legality. -/
theorem run_op_some (im : InputManager) (h : im.pin_idx ≤ 2) (op : InOp) :
    ∃ im2, run_op im op = some im2 ∧ im2.pin_idx ≤ 2 := by
  have h3 : im.pin_idx = 0 ∨ im.pin_idx = 1 ∨ im.pin_idx = 2 := by omega
  cases op with
  | upd a => simpa [run_op] using update_input_some im h a
  | start p =>
      rcases h3 with h0 | h0 | h0 <;> cases p <;> simp [run_op, start_new, h0, h]
  | result v =>
      rcases h3 with h0 | h0 | h0 <;>
        · simp only [run_op, process_result, h0]
          exact update_input_some im h _

/-- C10: along every sequence of update_input, start_new and
process_result calls from a freshly constructed InputManager, the pin
index stays in 0..2, so every run succeeds: the three Invalid pin index
panic branches are unreachable. -/
theorem c10_pin_idx_invariant (threshold : Nat) (ops : List InOp) :
    ∃ im2, run_ops (InputManager.new threshold) ops = some im2 ∧ im2.pin_idx ≤ 2 := by
  have main : ∀ (ops : List InOp) (im : InputManager), im.pin_idx ≤ 2 →
      ∃ im2, run_ops im ops = some im2 ∧ im2.pin_idx ≤ 2 := by
    intro ops
    induction ops with
    | nil => intro im h; exact ⟨im, rfl, h⟩
    | cons op rest ih =>
        intro im h
        obtain ⟨im1, hop, h1⟩ := run_op_some im h op
        obtain ⟨im2, hrun, h2⟩ := ih im1 h1
        exact ⟨im2, by simp [run_ops, hop, hrun], h2⟩
  exact main ops (InputManager.new threshold) (by simp [InputManager.new])

/-- Witness for C10 on a concrete operation sequence covering all three
operations. -/
theorem c10_witness :
    ∃ im2, run_ops (InputManager.new 5)
        [InOp.upd true, InOp.result 3, InOp.start false, InOp.result 9, InOp.upd false]
      = some im2 ∧ im2.pin_idx ≤ 2 :=
  c10_pin_idx_invariant 5
    [InOp.upd true, InOp.result 3, InOp.start false, InOp.result 9, InOp.upd false]

/-- The hex accumulator step keeps or aborts the current state, never
touches the frame buffer, and emits only non-dispatch collaborator
calls. -/
theorem hexStep_facts (oc : Oracles) (im : IngressManager) (byte : Nat) :
    ((hexStep oc im byte).1.state = im.state ∨ (hexStep oc im byte).1.state = State.Wait) ∧
    (hexStep oc im byte).1.buffer = im.buffer ∧
    (∀ e ∈ (hexStep oc im byte).2, e.isDispatch = false) := by
  by_cases h0 : im.hex_idx = 0
  · simp [hexStep, h0]
  · have hgt : im.hex_idx + 1 > 1 := by omega
    rcases hd : hex_byte_to_byte im.h0 byte with _ | v
    · simp [hexStep, h0, hgt, hd]
    · by_cases hc : im.state = State.ApplicationChecksum
      · by_cases hw : oc.wcOk <;>
          simp [hexStep, h0, hgt, hd, hc, hw, Event.isDispatch]
      · by_cases hw : oc.wrOk <;>
          simp [hexStep, h0, hgt, hd, hc, hw, Event.isDispatch]

/-- Draining the body of a Syscall frame from the Payload state: every
non-separator byte is appended verbatim, separators are skipped, nothing
is emitted, and the terminating ETX yields the Syscall type with the rest
of the queue untouched. -/
theorem aux_syscall (oc : Oracles) (rest : List Nat) : ∀ (body : List Nat) (im : IngressManager),
    (∀ b ∈ body, b ≠ 2 ∧ b ≠ 3) →
    im.state = State.Payload →
    im.buffer.btype = Ty.Syscall →
    ∃ im2, match_rb_aux oc im (body ++ 3 :: rest) = (im2, rest, [], some Ty.Syscall) ∧
      im2.buffer.payload = im.buffer.payload ++ body.filter (fun b => decide (b ≠ 31)) := by
  intro body
  induction body with
  | nil =>
      intro im _ _ ht
      refine ⟨{ im with state := State.Wait }, ?_, by simp⟩
      simp [match_rb_aux, STX, ETX, ht]
  | cons b tl ih =>
      intro im hb hs ht
      obtain ⟨hb2, hb3⟩ := hb b (List.mem_cons_self b tl)
      have hbtl : ∀ x ∈ tl, x ≠ 2 ∧ x ≠ 3 := fun x hx => hb x (List.mem_cons_of_mem b hx)
      by_cases h31 : b = 31
      · subst h31
        obtain ⟨im2, haux, hpay⟩ := ih { im with state := State.Payload } hbtl rfl ht
        refine ⟨im2, ?_, ?_⟩
        · simp [match_rb_aux, STX, ETX, SEP, sep_step, ht, haux]
        · rw [hpay]; simp [List.filter_cons]
      · obtain ⟨im2, haux, hpay⟩ := ih
          { im with buffer := im.buffer.write b, state := State.Payload } hbtl rfl
          (by simp [Buffer.write, ht])
        refine ⟨im2, ?_, ?_⟩
        · simp [match_rb_aux, STX, ETX, SEP, hb2, hb3, h31, run_state_machine, hs, haux]
        · rw [hpay]; simp [Buffer.write, List.filter_cons, h31]

/-- Draining the body of a Notification frame from any of the three
notification sub-states: separators rotate among the sub-states, every
other byte is appended verbatim, nothing is emitted, and the terminating
ETX yields the Notification type. -/
theorem aux_notification (oc : Oracles) (rest : List Nat) : ∀ (body : List Nat) (im : IngressManager),
    (∀ b ∈ body, b ≠ 2 ∧ b ≠ 3) →
    (im.state = State.NotificationSource ∨ im.state = State.NotificationTitle ∨
      im.state = State.NotificationBody) →
    im.buffer.btype = Ty.Notification →
    ∃ im2, match_rb_aux oc im (body ++ 3 :: rest) = (im2, rest, [], some Ty.Notification) ∧
      im2.buffer.payload = im.buffer.payload ++ body.filter (fun b => decide (b ≠ 31)) := by
  intro body
  induction body with
  | nil =>
      intro im _ _ ht
      refine ⟨{ im with state := State.Wait }, ?_, by simp⟩
      simp [match_rb_aux, STX, ETX, ht]
  | cons b tl ih =>
      intro im hb hs ht
      obtain ⟨hb2, hb3⟩ := hb b (List.mem_cons_self b tl)
      have hbtl : ∀ x ∈ tl, x ≠ 2 ∧ x ≠ 3 := fun x hx => hb x (List.mem_cons_of_mem b hx)
      by_cases h31 : b = 31
      · subst h31
        rcases hs with hs | hs | hs
        · obtain ⟨im2, haux, hpay⟩ := ih
            { im with nsi0 := im.nsi_idx, state := State.NotificationTitle } hbtl
            (Or.inr (Or.inl rfl)) ht
          refine ⟨im2, ?_, ?_⟩
          · simp [match_rb_aux, STX, ETX, SEP, sep_step, ht, hs, haux]
          · rw [hpay]; simp [List.filter_cons]
        · obtain ⟨im2, haux, hpay⟩ := ih
            { im with nsi1 := im.nsi_idx, state := State.NotificationBody } hbtl
            (Or.inr (Or.inr rfl)) ht
          refine ⟨im2, ?_, ?_⟩
          · simp [match_rb_aux, STX, ETX, SEP, sep_step, ht, hs, haux]
          · rw [hpay]; simp [List.filter_cons]
        · obtain ⟨im2, haux, hpay⟩ := ih
            { im with state := State.NotificationSource } hbtl (Or.inl rfl) ht
          refine ⟨im2, ?_, ?_⟩
          · simp [match_rb_aux, STX, ETX, SEP, sep_step, ht, hs, haux]
          · rw [hpay]; simp [List.filter_cons]
      · rcases hs with hs | hs | hs
        · obtain ⟨im2, haux, hpay⟩ := ih
            { im with nsi_idx := im.nsi_idx + 1, buffer := im.buffer.write b, state := State.NotificationSource }
            hbtl (Or.inl rfl) (by simp [Buffer.write, ht])
          refine ⟨im2, ?_, ?_⟩
          · simp [match_rb_aux, STX, ETX, SEP, hb2, hb3, h31, run_state_machine, hs, haux]
          · rw [hpay]; simp [Buffer.write, List.filter_cons, h31]
        · obtain ⟨im2, haux, hpay⟩ := ih
            { im with nsi_idx := im.nsi_idx + 1, buffer := im.buffer.write b, state := State.NotificationTitle }
            hbtl (Or.inr (Or.inl rfl)) (by simp [Buffer.write, ht])
          refine ⟨im2, ?_, ?_⟩
          · simp [match_rb_aux, STX, ETX, SEP, hb2, hb3, h31, run_state_machine, hs, haux]
          · rw [hpay]; simp [Buffer.write, List.filter_cons, h31]
        · obtain ⟨im2, haux, hpay⟩ := ih
            { im with nsi_idx := im.nsi_idx + 1, buffer := im.buffer.write b, state := State.NotificationBody }
            hbtl (Or.inr (Or.inr rfl)) (by simp [Buffer.write, ht])
          refine ⟨im2, ?_, ?_⟩
          · simp [match_rb_aux, STX, ETX, SEP, hb2, hb3, h31, run_state_machine, hs, haux]
          · rw [hpay]; simp [Buffer.write, List.filter_cons, h31]

/-- Draining the body of an Application frame from the checksum, store or
aborted state: the engine stays within those states, only kill and
checksum or ram byte writes are emitted — never a dispatch — and the
terminating ETX yields the Application type. -/
theorem aux_application (oc : Oracles) (rest : List Nat) : ∀ (body : List Nat) (im : IngressManager),
    (∀ b ∈ body, b ≠ 2 ∧ b ≠ 3) →
    (im.state = State.ApplicationChecksum ∨ im.state = State.ApplicationStore ∨
      im.state = State.Wait) →
    im.buffer.btype = Ty.Application →
    ∃ im2 evs, match_rb_aux oc im (body ++ 3 :: rest) = (im2, rest, evs, some Ty.Application) ∧
      ∀ e ∈ evs, e.isDispatch = false := by
  intro body
  induction body with
  | nil =>
      intro im _ _ ht
      refine ⟨{ im with state := State.Wait }, [], ?_, by simp⟩
      simp [match_rb_aux, STX, ETX, ht]
  | cons b tl ih =>
      intro im hb hs ht
      obtain ⟨hb2, hb3⟩ := hb b (List.mem_cons_self b tl)
      have hbtl : ∀ x ∈ tl, x ≠ 2 ∧ x ≠ 3 := fun x hx => hb x (List.mem_cons_of_mem b hx)
      by_cases h31 : b = 31
      · subst h31
        by_cases hc : im.state = State.ApplicationChecksum
        · obtain ⟨im2, evs, haux, hnd⟩ := ih { im with state := State.ApplicationStore } hbtl
            (Or.inr (Or.inl rfl)) ht
          refine ⟨im2, evs, ?_, hnd⟩
          simp [match_rb_aux, STX, ETX, SEP, sep_step, ht, hc, haux]
        · obtain ⟨im2, evs, haux, hnd⟩ := ih { im with state := State.ApplicationChecksum } hbtl
            (Or.inl rfl) ht
          refine ⟨im2, Event.kill oc.killOk :: evs, ?_, ?_⟩
          · simp [match_rb_aux, STX, ETX, SEP, sep_step, ht, hc, haux]
          · intro e he
            rcases List.mem_cons.mp he with he | he
            · subst he; rfl
            · exact hnd e he
      · rcases hs with hs | hs | hs
        · have hfacts := hexStep_facts oc im b
          obtain ⟨im2, evs, haux, hnd⟩ := ih (hexStep oc im b).1 hbtl
            (by rcases hfacts.1 with h | h
                · rw [h, hs]; exact Or.inl rfl
                · rw [h]; exact Or.inr (Or.inr rfl))
            (by rw [hfacts.2.1]; exact ht)
          refine ⟨im2, (hexStep oc im b).2 ++ evs, ?_, ?_⟩
          · simp [match_rb_aux, STX, ETX, SEP, hb2, hb3, h31, run_state_machine, hs, haux]
          · intro e he
            rcases List.mem_append.mp he with he | he
            · exact hfacts.2.2 e he
            · exact hnd e he
        · have hfacts := hexStep_facts oc im b
          obtain ⟨im2, evs, haux, hnd⟩ := ih (hexStep oc im b).1 hbtl
            (by rcases hfacts.1 with h | h
                · rw [h, hs]; exact Or.inr (Or.inl rfl)
                · rw [h]; exact Or.inr (Or.inr rfl))
            (by rw [hfacts.2.1]; exact ht)
          refine ⟨im2, (hexStep oc im b).2 ++ evs, ?_, ?_⟩
          · simp [match_rb_aux, STX, ETX, SEP, hb2, hb3, h31, run_state_machine, hs, haux]
          · intro e he
            rcases List.mem_append.mp he with he | he
            · exact hfacts.2.2 e he
            · exact hnd e he
        · obtain ⟨im2, evs, haux, hnd⟩ := ih im hbtl (Or.inr (Or.inr hs)) ht
          refine ⟨im2, evs, ?_, hnd⟩
          simp [match_rb_aux, STX, ETX, SEP, hb2, hb3, h31, run_state_machine, hs, haux]

/-- Engine state after STX, the N type byte and the first separator. -/
def stN : IngressManager :=
  ⟨⟨Ty.Notification, []⟩, [], State.NotificationSource, 0, 0, 0, 0, 0, 0, 0⟩

/-- Engine state after STX, the S type byte and the first separator. -/
def stS : IngressManager :=
  ⟨⟨Ty.Syscall, []⟩, [], State.Payload, 0, 0, 0, 0, 0, 0, 0⟩

/-- Engine state after STX, the A type byte and the first separator. -/
def stA : IngressManager :=
  ⟨⟨Ty.Application, []⟩, [], State.ApplicationChecksum, 0, 0, 0, 0, 0, 0, 0⟩

/-- C5 (amended): for frames STX, type, body, ETX whose type selector is
recognized, whose body contains no frame delimiters, and whose body is
empty or opens with a field separator (the counterexample shows a body
whose first byte is not a separator reclassifies the frame and loses the
dispatch), processing from a fresh engine dispatches exactly once with the
type matching the selector, and for the non-hex Notification and Syscall
types the dispatched content is the body with the field separators
removed (assuming verify succeeds, else the Application dispatch
panics). -/
theorem c5_amended (oc : Oracles) (t : Nat) (body : List Nat)
    (ht : t = 78 ∨ t = 83 ∨ t = 65)
    (hb : ∀ b ∈ body, b ≠ 2 ∧ b ≠ 3)
    (hfirst : body = [] ∨ ∃ tl, body = 31 :: tl)
    (hv : oc.verifyOk = true) :
    ∃ im2 evs,
      process oc { IngressManager.new with rb := 2 :: t :: (body ++ [3]) } = Except.ok (im2, evs) ∧
      ((t = 78 ∧ ∃ ns, evs.filter Event.isDispatch
          = [Event.nmAdd (body.filter (fun b => decide (b ≠ 31))) ns oc.addOk]) ∨
       (t = 83 ∧ evs.filter Event.isDispatch
          = [Event.syscall (body.filter (fun b => decide (b ≠ 31))) oc.parseOk]) ∨
       (t = 65 ∧ evs.filter Event.isDispatch = [Event.verify])) := by
  rcases hfirst with rfl | ⟨tl, rfl⟩
  · rcases ht with rfl | rfl | rfl
    · have hm : match_rb oc { IngressManager.new with rb := [2, 78, 3] }
          = (⟨⟨Ty.Notification, []⟩, [], State.Wait, 0, 0, 0, 0, 0, 0, 0⟩, [], some Ty.Notification) := rfl
      refine ⟨⟨⟨Ty.Notification, []⟩, [], State.Wait, 0, 0, 0, 0, 0, 0, 0⟩,
        [Event.nmAdd [] (0, 0, 0) oc.addOk], ?_, Or.inl ⟨rfl, ⟨(0, 0, 0), ?_⟩⟩⟩
      · simp [process, hm]
      · simp [Event.isDispatch]
    · have hm : match_rb oc { IngressManager.new with rb := [2, 83, 3] }
          = (⟨⟨Ty.Syscall, []⟩, [], State.Wait, 0, 0, 0, 0, 0, 0, 0⟩, [], some Ty.Syscall) := rfl
      refine ⟨⟨⟨Ty.Syscall, []⟩, [], State.Wait, 0, 0, 0, 0, 0, 0, 0⟩,
        [Event.syscall [] oc.parseOk], ?_, Or.inr (Or.inl ⟨rfl, ?_⟩)⟩
      · simp [process, hm]
      · simp [Event.isDispatch]
    · have hm : match_rb oc { IngressManager.new with rb := [2, 65, 3] }
          = (⟨⟨Ty.Application, []⟩, [], State.Wait, 0, 0, 0, 0, 0, 0, 0⟩, [], some Ty.Application) := rfl
      refine ⟨⟨⟨Ty.Application, []⟩, [], State.Wait, 0, 0, 0, 0, 0, 0, 0⟩,
        [Event.verify], ?_, Or.inr (Or.inr ⟨rfl, ?_⟩)⟩
      · simp [process, hm, hv]
      · simp [Event.isDispatch]
  · have hbtl : ∀ x ∈ tl, x ≠ 2 ∧ x ≠ 3 := fun x hx => hb x (List.mem_cons_of_mem 31 hx)
    rcases ht with rfl | rfl | rfl
    · obtain ⟨im2, haux, hpay⟩ := aux_notification oc [] tl stN hbtl (Or.inl rfl) rfl
      have hm : match_rb oc { IngressManager.new with rb := 2 :: 78 :: 31 :: (tl ++ [3]) }
          = ({ im2 with rb := [] }, [], some Ty.Notification) := by
        have hbr : match_rb oc { IngressManager.new with rb := 2 :: 78 :: 31 :: (tl ++ [3]) }
            = (let q := match_rb_aux oc stN (tl ++ [3])
               ({ q.1 with rb := q.2.1 }, q.2.2.1, q.2.2.2)) := rfl
        rw [hbr]
        simp only [haux]
      refine ⟨{ im2 with rb := [], nsi2 := im2.nsi_idx },
        [Event.nmAdd im2.buffer.payload (im2.nsi0, im2.nsi1, im2.nsi_idx) oc.addOk], ?_,
        Or.inl ⟨rfl, ⟨(im2.nsi0, im2.nsi1, im2.nsi_idx), ?_⟩⟩⟩
      · simp [process, hm]
      · rw [show im2.buffer.payload = List.filter (fun b => decide (b ≠ 31)) tl by
            rw [hpay]; simp [stN]]
        simp [Event.isDispatch, List.filter_cons]
    · obtain ⟨im2, haux, hpay⟩ := aux_syscall oc [] tl stS hbtl rfl rfl
      have hm : match_rb oc { IngressManager.new with rb := 2 :: 83 :: 31 :: (tl ++ [3]) }
          = ({ im2 with rb := [] }, [], some Ty.Syscall) := by
        have hbr : match_rb oc { IngressManager.new with rb := 2 :: 83 :: 31 :: (tl ++ [3]) }
            = (let q := match_rb_aux oc stS (tl ++ [3])
               ({ q.1 with rb := q.2.1 }, q.2.2.1, q.2.2.2)) := rfl
        rw [hbr]
        simp only [haux]
      refine ⟨{ im2 with rb := [] },
        [Event.syscall im2.buffer.payload oc.parseOk], ?_, Or.inr (Or.inl ⟨rfl, ?_⟩)⟩
      · simp [process, hm]
      · rw [show im2.buffer.payload = List.filter (fun b => decide (b ≠ 31)) tl by
            rw [hpay]; simp [stS]]
        simp [Event.isDispatch, List.filter_cons]
    · obtain ⟨im2, evs, haux, hnd⟩ := aux_application oc [] tl stA hbtl (Or.inl rfl) rfl
      have hm : match_rb oc { IngressManager.new with rb := 2 :: 65 :: 31 :: (tl ++ [3]) }
          = ({ im2 with rb := [] }, Event.kill oc.killOk :: evs, some Ty.Application) := by
        have hbr : match_rb oc { IngressManager.new with rb := 2 :: 65 :: 31 :: (tl ++ [3]) }
            = (let q := match_rb_aux oc stA (tl ++ [3])
               ({ q.1 with rb := q.2.1 }, Event.kill oc.killOk :: q.2.2.1, q.2.2.2)) := rfl
        rw [hbr]
        simp only [haux]
      have hevs : evs.filter Event.isDispatch = [] :=
        List.filter_eq_nil_iff.mpr (fun e he => by simp [hnd e he])
      refine ⟨{ im2 with rb := [] },
        Event.kill oc.killOk :: (evs ++ [Event.verify]), ?_, Or.inr (Or.inr ⟨rfl, ?_⟩)⟩
      · simp [process, hm, hv]
      · simp [Event.isDispatch, List.filter_cons, List.filter_append, hevs]

/-- Witness for C5 (amended) at the syscall frame STX, S, US, h, i, ETX. -/
theorem c5_amended_witness :
    ∃ im2 evs,
      process oc0 { IngressManager.new with rb := 2 :: 83 :: (([31, 104, 105] ++ [3]) : List Nat) }
        = Except.ok (im2, evs) ∧
      (((83 : Nat) = 78 ∧ ∃ ns, evs.filter Event.isDispatch
          = [Event.nmAdd (List.filter (fun b => decide (b ≠ 31)) [31, 104, 105]) ns oc0.addOk]) ∨
       ((83 : Nat) = 83 ∧ evs.filter Event.isDispatch
          = [Event.syscall (List.filter (fun b => decide (b ≠ 31)) [31, 104, 105]) oc0.parseOk]) ∨
       ((83 : Nat) = 65 ∧ evs.filter Event.isDispatch = [Event.verify])) :=
  c5_amended oc0 83 [31, 104, 105] (Or.inr (Or.inl rfl))
    (by intro b hb; fin_cases hb <;> simp)
    (Or.inr ⟨[104, 105], rfl⟩) rfl

/-- Observational relation between two engine states arising after a
frame-start: every field the machine can still read agrees; only the dead
hex characters — h0 once no character is pending, h1 always — and the
stale third section index nsi2, which is overwritten before every read,
may differ. -/
def Rel (a b : IngressManager) : Prop :=
  a.buffer = b.buffer ∧ a.rb = b.rb ∧ a.state = b.state ∧
  a.hex_idx = b.hex_idx ∧ a.hex_idx ≤ 1 ∧ (a.hex_idx = 1 → a.h0 = b.h0) ∧
  a.nsi0 = b.nsi0 ∧ a.nsi1 = b.nsi1 ∧ a.nsi_idx = b.nsi_idx

/-- A frame-start relates any two states agreeing on the queue and the
first two section indices. -/
theorem rel_stx (a b : IngressManager) (hrb : a.rb = b.rb)
    (h0 : a.nsi0 = b.nsi0) (h1 : a.nsi1 = b.nsi1) :
    Rel (stx_step a) (stx_step b) := by
  exact ⟨by simp [stx_step, Buffer.clear], hrb, rfl, rfl, by simp [stx_step],
    by simp [stx_step], h0, h1, rfl⟩

/-- The field-separator step preserves the relation and emits the same
events on both sides. -/
theorem rel_sep (oc : Oracles) (a b : IngressManager) (h : Rel a b) :
    Rel (sep_step oc a).1 (sep_step oc b).1 ∧ (sep_step oc a).2 = (sep_step oc b).2 := by
  obtain ⟨hb, hrb, hs, hh, hh1, hh0, h0, h1, hn⟩ := h
  unfold sep_step
  rw [hb, hs, hn]
  cases b.buffer.btype
  · exact ⟨⟨rfl, hrb, rfl, hh, hh1, hh0, h0, h1, rfl⟩, rfl⟩
  · by_cases hc : b.state = State.ApplicationChecksum
    · rw [if_pos hc, if_pos hc]
      exact ⟨⟨rfl, hrb, rfl, hh, hh1, hh0, h0, h1, rfl⟩, rfl⟩
    · rw [if_neg hc, if_neg hc]
      exact ⟨⟨rfl, hrb, rfl, hh, hh1, hh0, h0, h1, rfl⟩, rfl⟩
  · by_cases hc : b.state = State.NotificationSource
    · rw [if_pos hc, if_pos hc]
      exact ⟨⟨rfl, hrb, rfl, hh, hh1, hh0, rfl, h1, rfl⟩, rfl⟩
    · rw [if_neg hc, if_neg hc]
      by_cases hc2 : b.state = State.NotificationTitle
      · rw [if_pos hc2, if_pos hc2]
        exact ⟨⟨rfl, hrb, rfl, hh, hh1, hh0, h0, rfl, rfl⟩, rfl⟩
      · rw [if_neg hc2, if_neg hc2]
        exact ⟨⟨rfl, hrb, rfl, hh, hh1, hh0, h0, h1, rfl⟩, rfl⟩
  · exact ⟨⟨rfl, hrb, rfl, hh, hh1, hh0, h0, h1, rfl⟩, rfl⟩

/-- The hex accumulator step preserves the relation and emits the same
events on both sides: the pending character h0 is only read when a second
character arrives, at which point the relation guarantees it agrees. -/
theorem rel_hexStep (oc : Oracles) (a b : IngressManager) (byte : Nat) (h : Rel a b) :
    Rel (hexStep oc a byte).1 (hexStep oc b byte).1 ∧
    (hexStep oc a byte).2 = (hexStep oc b byte).2 := by
  obtain ⟨hb, hrb, hs, hh, hh1, hh0, h0, h1, hn⟩ := h
  by_cases hz : b.hex_idx = 0
  · have ha : a.hex_idx = 0 := by omega
    have ea : hexStep oc a byte = ({ a with h0 := byte, hex_idx := 1 }, []) := by
      simp [hexStep, ha]
    have eb : hexStep oc b byte = ({ b with h0 := byte, hex_idx := 1 }, []) := by
      simp [hexStep, hz]
    rw [ea, eb]
    exact ⟨⟨hb, hrb, hs, rfl, by simp, fun _ => rfl, h0, h1, hn⟩, rfl⟩
  · have ha1 : a.hex_idx = 1 := by omega
    have hone : b.hex_idx = 1 := by omega
    have hh0e : a.h0 = b.h0 := hh0 ha1
    rcases hd : hex_byte_to_byte b.h0 byte with _ | v
    · have ea : hexStep oc a byte
          = ({ a with h1 := byte, state := State.Wait, hex_idx := 0 }, []) := by
        simp [hexStep, ha1, hh0e, hd]
      have eb : hexStep oc b byte
          = ({ b with h1 := byte, state := State.Wait, hex_idx := 0 }, []) := by
        simp [hexStep, hone, hd]
      rw [ea, eb]
      exact ⟨⟨hb, hrb, rfl, rfl, by simp, by simp, h0, h1, hn⟩, rfl⟩
    · by_cases hc : b.state = State.ApplicationChecksum
      · by_cases hw : oc.wcOk
        · have ea : hexStep oc a byte
              = ({ a with h1 := byte, hex_idx := 0 }, [Event.writeChecksum v oc.wcOk]) := by
            simp [hexStep, ha1, hh0e, hd, hs, hc, hw]
          have eb : hexStep oc b byte
              = ({ b with h1 := byte, hex_idx := 0 }, [Event.writeChecksum v oc.wcOk]) := by
            simp [hexStep, hone, hd, hc, hw]
          rw [ea, eb]
          exact ⟨⟨hb, hrb, hs, rfl, by simp, by simp, h0, h1, hn⟩, rfl⟩
        · have ea : hexStep oc a byte
              = ({ a with h1 := byte, state := State.Wait, hex_idx := 0 },
                 [Event.writeChecksum v oc.wcOk]) := by
            simp [hexStep, ha1, hh0e, hd, hs, hc, hw]
          have eb : hexStep oc b byte
              = ({ b with h1 := byte, state := State.Wait, hex_idx := 0 },
                 [Event.writeChecksum v oc.wcOk]) := by
            simp [hexStep, hone, hd, hc, hw]
          rw [ea, eb]
          exact ⟨⟨hb, hrb, rfl, rfl, by simp, by simp, h0, h1, hn⟩, rfl⟩
      · by_cases hw : oc.wrOk
        · have ea : hexStep oc a byte
              = ({ a with h1 := byte, hex_idx := 0 }, [Event.writeRam v oc.wrOk]) := by
            simp [hexStep, ha1, hh0e, hd, hs, hc, hw]
          have eb : hexStep oc b byte
              = ({ b with h1 := byte, hex_idx := 0 }, [Event.writeRam v oc.wrOk]) := by
            simp [hexStep, hone, hd, hc, hw]
          rw [ea, eb]
          exact ⟨⟨hb, hrb, hs, rfl, by simp, by simp, h0, h1, hn⟩, rfl⟩
        · have ea : hexStep oc a byte
              = ({ a with h1 := byte, state := State.Wait, hex_idx := 0 },
                 [Event.writeRam v oc.wrOk]) := by
            simp [hexStep, ha1, hh0e, hd, hs, hc, hw]
          have eb : hexStep oc b byte
              = ({ b with h1 := byte, state := State.Wait, hex_idx := 0 },
                 [Event.writeRam v oc.wrOk]) := by
            simp [hexStep, hone, hd, hc, hw]
          rw [ea, eb]
          exact ⟨⟨hb, hrb, rfl, rfl, by simp, by simp, h0, h1, hn⟩, rfl⟩

/-- The per-state byte handler preserves the relation and emits the same
events on both sides. -/
theorem rel_rsm (oc : Oracles) (a b : IngressManager) (byte : Nat) (h : Rel a b) :
    Rel (run_state_machine oc a byte).1 (run_state_machine oc b byte).1 ∧
    (run_state_machine oc a byte).2 = (run_state_machine oc b byte).2 := by
  obtain ⟨hb, hrb, hs, hh, hh1, hh0, h0, h1, hn⟩ := h
  unfold run_state_machine
  rw [hs, hb, hn]
  cases b.state
  · exact ⟨⟨hb, hrb, hs, hh, hh1, hh0, h0, h1, hn⟩, rfl⟩
  · by_cases hd : determine_type byte = Ty.Unknown
    · rw [if_pos hd, if_pos hd]
      exact ⟨⟨rfl, hrb, rfl, hh, hh1, hh0, h0, h1, rfl⟩, rfl⟩
    · rw [if_neg hd, if_neg hd]
      exact ⟨⟨rfl, hrb, rfl, hh, hh1, hh0, h0, h1, rfl⟩, rfl⟩
  · exact ⟨⟨rfl, hrb, rfl, hh, hh1, hh0, h0, h1, rfl⟩, rfl⟩
  · exact rel_hexStep oc a b byte ⟨hb, hrb, hs, hh, hh1, hh0, h0, h1, hn⟩
  · exact rel_hexStep oc a b byte ⟨hb, hrb, hs, hh, hh1, hh0, h0, h1, hn⟩
  · exact ⟨⟨rfl, hrb, rfl, hh, hh1, hh0, h0, h1, rfl⟩, rfl⟩
  · exact ⟨⟨rfl, hrb, rfl, hh, hh1, hh0, h0, h1, rfl⟩, rfl⟩
  · exact ⟨⟨rfl, hrb, rfl, hh, hh1, hh0, h0, h1, rfl⟩, rfl⟩

/-- Related engine states drain any byte list to related final states with
identical leftovers, identical event logs and identical frame results. -/
theorem rel_aux (oc : Oracles) (bytes : List Nat) : ∀ a b, Rel a b →
    Rel (match_rb_aux oc a bytes).1 (match_rb_aux oc b bytes).1 ∧
    (match_rb_aux oc a bytes).2.1 = (match_rb_aux oc b bytes).2.1 ∧
    (match_rb_aux oc a bytes).2.2.1 = (match_rb_aux oc b bytes).2.2.1 ∧
    (match_rb_aux oc a bytes).2.2.2 = (match_rb_aux oc b bytes).2.2.2 := by
  induction bytes with
  | nil => intro a b h; exact ⟨h, rfl, rfl, rfl⟩
  | cons c rest ih =>
      intro a b h
      by_cases hc2 : c = 2
      · subst hc2
        have ea : match_rb_aux oc a (2 :: rest) = match_rb_aux oc (stx_step a) rest := rfl
        have eb : match_rb_aux oc b (2 :: rest) = match_rb_aux oc (stx_step b) rest := rfl
        rw [ea, eb]
        exact ih _ _ (rel_stx a b h.2.1 h.2.2.2.2.2.2.1 h.2.2.2.2.2.2.2.1)
      · by_cases hc3 : c = 3
        · subst hc3
          have ea : match_rb_aux oc a (3 :: rest)
              = ({ a with state := State.Wait }, rest, [], some a.buffer.btype) := rfl
          have eb : match_rb_aux oc b (3 :: rest)
              = ({ b with state := State.Wait }, rest, [], some b.buffer.btype) := rfl
          rw [ea, eb]
          exact ⟨⟨h.1, h.2.1, rfl, h.2.2.2.1, h.2.2.2.2.1, h.2.2.2.2.2.1,
            h.2.2.2.2.2.2.1, h.2.2.2.2.2.2.2.1, h.2.2.2.2.2.2.2.2⟩, rfl, rfl,
            by rw [h.1]⟩
        · by_cases hc31 : c = 31
          · subst hc31
            obtain ⟨hrel, hev⟩ := rel_sep oc a b h
            obtain ⟨ihrel, ihrest, ihev, ihres⟩ := ih _ _ hrel
            have ea : match_rb_aux oc a (31 :: rest)
                = ((match_rb_aux oc (sep_step oc a).1 rest).1,
                   (match_rb_aux oc (sep_step oc a).1 rest).2.1,
                   (sep_step oc a).2 ++ (match_rb_aux oc (sep_step oc a).1 rest).2.2.1,
                   (match_rb_aux oc (sep_step oc a).1 rest).2.2.2) := rfl
            have eb : match_rb_aux oc b (31 :: rest)
                = ((match_rb_aux oc (sep_step oc b).1 rest).1,
                   (match_rb_aux oc (sep_step oc b).1 rest).2.1,
                   (sep_step oc b).2 ++ (match_rb_aux oc (sep_step oc b).1 rest).2.2.1,
                   (match_rb_aux oc (sep_step oc b).1 rest).2.2.2) := rfl
            rw [ea, eb]
            exact ⟨ihrel, ihrest, by rw [hev, ihev], ihres⟩
          · obtain ⟨hrel, hev⟩ := rel_rsm oc a b c h
            obtain ⟨ihrel, ihrest, ihev, ihres⟩ := ih _ _ hrel
            have h2 : ¬ (c = STX) := by simpa [STX] using hc2
            have h3 : ¬ (c = ETX) := by simpa [ETX] using hc3
            have h31 : ¬ (c = SEP) := by simpa [SEP] using hc31
            simp only [match_rb_aux, if_neg h2, if_neg h3, if_neg h31]
            exact ⟨ihrel, ihrest, by rw [hev, ihev], ihres⟩

/-- C3 (amended): after a frame-start byte, the observable behavior of
the engine — every collaborator event emitted, the dispatch including the
section-index array handed to the notification collaborator, and any
panic — is a function of the bytes received since that frame-start
together with the residual first two notification section indices: two
engines that agree on those two indices behave identically on every byte
sequence following an STX, whatever their earlier histories.  The
counterexample shows the two indices cannot be dropped from this list:
the frame-start does not reset them, and a frame with fewer field
separators hands the stale values to the notification collaborator. -/
theorem c3_amended (oc : Oracles) (im1 im2 : IngressManager) (bytes : List Nat)
    (h0 : im1.nsi0 = im2.nsi0) (h1 : im1.nsi1 = im2.nsi1) :
    (process oc { im1 with rb := 2 :: bytes }).map (fun p => p.2)
      = (process oc { im2 with rb := 2 :: bytes }).map (fun p => p.2) := by
  obtain ⟨hrelf, hrest, hev, hres⟩ :=
    rel_aux oc bytes (stx_step { im1 with rb := [] }) (stx_step { im2 with rb := [] })
      (rel_stx { im1 with rb := [] } { im2 with rb := [] } rfl h0 h1)
  obtain ⟨cb, crb, cs, chh, chh1, chh0, cn0, cn1, cni⟩ := hrelf
  have e1 : match_rb oc { im1 with rb := 2 :: bytes }
      = ({ (match_rb_aux oc (stx_step { im1 with rb := [] }) bytes).1 with
            rb := (match_rb_aux oc (stx_step { im1 with rb := [] }) bytes).2.1 },
         (match_rb_aux oc (stx_step { im1 with rb := [] }) bytes).2.2.1,
         (match_rb_aux oc (stx_step { im1 with rb := [] }) bytes).2.2.2) := rfl
  have e2 : match_rb oc { im2 with rb := 2 :: bytes }
      = ({ (match_rb_aux oc (stx_step { im2 with rb := [] }) bytes).1 with
            rb := (match_rb_aux oc (stx_step { im2 with rb := [] }) bytes).2.1 },
         (match_rb_aux oc (stx_step { im2 with rb := [] }) bytes).2.2.1,
         (match_rb_aux oc (stx_step { im2 with rb := [] }) bytes).2.2.2) := rfl
  rcases hq : (match_rb_aux oc (stx_step { im1 with rb := [] }) bytes).2.2.2 with _ | ty
  · have hq2 : (match_rb_aux oc (stx_step { im2 with rb := [] }) bytes).2.2.2 = none := by
      rw [← hres]; exact hq
    simp [process, e1, e2, hq, hq2, Except.map, hev]
  · have hq2 : (match_rb_aux oc (stx_step { im2 with rb := [] }) bytes).2.2.2 = some ty := by
      rw [← hres]; exact hq
    cases ty
    · simp [process, e1, e2, hq, hq2, Except.map, hev]
    · by_cases hv : oc.verifyOk <;>
        simp [process, e1, e2, hq, hq2, Except.map, hev, hv]
    · simp [process, e1, e2, hq, hq2, Except.map, hev, cb, cn0, cn1, cni]
    · simp [process, e1, e2, hq, hq2, Except.map, hev, cb]

/-- Witness for C3 (amended): an engine with stale hex characters and a
stale third section index behaves like a fresh engine on the frame
STX, N, US, c, ETX, both agreeing on the first two section indices. -/
theorem c3_amended_witness :
    (process oc0 { ({ IngressManager.new with nsi2 := 5, h0 := 7 } : IngressManager) with
        rb := 2 :: [78, 31, 99, 3] }).map (fun p => p.2)
      = (process oc0 { IngressManager.new with rb := 2 :: [78, 31, 99, 3] }).map (fun p => p.2) :=
  c3_amended oc0 { IngressManager.new with nsi2 := 5, h0 := 7 } IngressManager.new
    [78, 31, 99, 3] rfl rfl

end MWatch
